import Mathlib

/-!
Verification development for the chunk streaming subsystem of
`src/components/WorldCanvas.tsx` (a React/three.js voxel world viewer).

The component is shallowly embedded as a small-step state machine: all state
that the effect closure mutates (`loaded`, `inflight`, `chunkLoadQueue`,
`disposed`, pending `setTimeout` timers, outstanding `fetch` requests) is a
field of `St`, and every synchronous block of code between two awaitable
boundaries (issuing a fetch, awaiting its body, a timer callback, the
`useEffect` cleanup, a call to `ensureChunksAround`) is one transition of
`step`.  JavaScript is single threaded, so interleavings happen only at those
boundaries; an `Ev` trace chooses the interleaving and the network oracle
(each fetch outcome is part of the `Ev.resolve` event).

JS `Map` and `Set` are modelled as insertion-ordered association lists with
the exact `set`/`delete`/`has` semantics; chunk keys (JS strings built by
`keyOf = (cx, cz) => cx + "," + cz`) are modelled as their character lists.

Ghost fields (`builds`, `attachLog`, `overwrites`, `fallbacks`, `fetchLog`)
record the history of calls to `buildInstancedChunk`, `worldGroup.add`,
`loaded.set` on an already present key, local fallback generation, and
`fetch`; they are write-only instrumentation and never influence control flow.
-/

namespace VoxelStream

/-! ## Chunk keys: `keyOf`, `split(',')` and `parseInt` -/

/-- The separator used by `keyOf` (source line 55: the template string
places a comma between the two coordinates). -/
def comma : Char := ','

/-- The minus sign produced by JS number-to-string conversion for negative
integers, and accepted by `parseInt`. -/
def dash : Char := '-'

/-- Decimal digit character for a digit value `d < 10`. -/
def decChar (d : ℕ) : Char := Char.ofNat (48 + d)

/-- Numeric value of a decimal digit character. -/
def decVal (c : Char) : ℕ := c.toNat - 48

/-- Big-endian decimal digits of a natural number, fuelled so that the
recursion is structural.  `natCharsAux (n+1) n` is JS `String(n)`. -/
def natCharsAux : ℕ → ℕ → List Char
  | 0, _ => []
  | fuel + 1, n =>
    if n < 10 then [decChar n]
    else natCharsAux fuel (n / 10) ++ [decChar (n % 10)]

/-- Decimal representation of a natural number, as JS renders it. -/
def natChars (n : ℕ) : List Char := natCharsAux (n + 1) n

/-- Decimal representation of an integer, as JS template-string
interpolation renders it: a `-` sign followed by digits for negatives. -/
def intChars (i : ℤ) : List Char :=
  if i < 0 then dash :: natChars i.natAbs else natChars i.toNat

/-- A chunk key.  The source uses the JS string `cx + "," + cz`; we model the
string as its list of characters. -/
abbrev Key := List Char

/-- `keyOf` (source line 55): the canonical key of chunk `(cx, cz)`. -/
def keyOf (cx cz : ℤ) : Key := intChars cx ++ comma :: intChars cz

/-- Value of a digit string, most significant digit first (the accumulator
loop of decimal parsing). -/
def parseNat (s : List Char) : ℕ := s.foldl (fun a c => a * 10 + decVal c) 0

/-- Model of JS `parseInt(s, 10)` on the strings that occur as chunk keys:
an optional leading `-` followed by the longest prefix of decimal digits;
`none` models the `NaN` result when no digit is found.  (Leading whitespace
and a `+` sign never occur in keys and are not modelled.) -/
def parseIntJS (s : List Char) : Option ℤ :=
  match s with
  | [] => none
  | c :: rest =>
    if c = dash then
      match rest.takeWhile Char.isDigit with
      | [] => none
      | ds => some (-(parseNat ds : ℤ))
    else
      match (c :: rest).takeWhile Char.isDigit with
      | [] => none
      | ds => some ((parseNat ds : ℤ))

/-- Model of JS `String.prototype.split(',')`. -/
def splitComma : List Char → List (List Char)
  | [] => [[]]
  | c :: rest =>
    if c = comma then [] :: splitComma rest
    else
      match splitComma rest with
      | [] => [[c]]
      | p :: ps => (c :: p) :: ps

/-- The destructuring `const [gx, gz] = key.split(',').map(n => parseInt(n, 10))`
from the eviction scan (source line 240): the first two parsed components of
a key (missing components are JS `undefined`/`NaN`, modelled as `none`). -/
def parseKey (k : Key) : Option ℤ × Option ℤ :=
  match (splitComma k).map parseIntJS with
  | [] => (none, none)
  | [g] => (g, none)
  | g :: h :: _ => (g, h)

/-! ## JS `Map` and `Set` on association lists -/

/-- The keys of an insertion-ordered map, in order. -/
def keysOf (m : List (Key × ℕ)) : List Key := m.map Prod.fst

/-- JS `Map.prototype.get` (also the truthiness test `if (group)`). -/
def mapFind : List (Key × ℕ) → Key → Option ℕ
  | [], _ => none
  | p :: m, k => if p.1 = k then some p.2 else mapFind m k

/-- JS `Map.prototype.set`: updates the existing entry in place, otherwise
appends at the end (JS maps preserve insertion order). -/
def mapSet (m : List (Key × ℕ)) (k : Key) (v : ℕ) : List (Key × ℕ) :=
  if k ∈ keysOf m then m.map (fun p => if p.1 = k then (k, v) else p)
  else m ++ [(k, v)]

/-- JS `Map.prototype.delete`. -/
def mapDel (m : List (Key × ℕ)) (k : Key) : List (Key × ℕ) :=
  m.filter (fun p => decide (p.1 ≠ k))

/-- JS `Set.prototype.add`. -/
def setAdd (l : List Key) (k : Key) : List Key :=
  if k ∈ l then l else l ++ [k]

/-- JS `Set.prototype.delete`. -/
def setDel (l : List Key) (k : Key) : List Key :=
  l.filter (fun a => decide (a ≠ k))

/-! ## Configuration and streaming state -/

/-- Ambient configuration.  Modelled from the spec: `CHUNK`
(`WorldConfiguraton.CHUNK`) and the base block id
(`WorldConfiguraton.WORLD_BASE_BLOCK`) live in `lib/three`, which is not part
of the streaming source; the spec only requires `CHUNK` to be an integer
`> 1` and uses `CHUNK = 16` in its concrete scenarios. -/
structure Cfg where
  chunk : ℕ
  base : ℕ
deriving DecidableEq

/-- `const VIEW_RADIUS = 6` (source line 29). -/
def VIEW_RADIUS : ℤ := 6

/-- `const maxRetries = 3` (source line 59). -/
def maxRetries : ℕ := 3

/-- `const baseRetryDelay = 1000` (source line 60). -/
def baseRetryDelay : ℕ := 1000

/-- `baseRetryDelay * Math.pow(2, retryCount)` (source line 149), in ms. -/
def retryDelay (rc : ℕ) : ℕ := baseRetryDelay * 2 ^ rc

/-- The payload of a pending `setTimeout` callback. -/
inductive TAct where
  /-- the stagger-load callback of `ensureChunksAround` (lines 230–234):
  `if (!disposed) loadChunkAt(x, z, priority)` -/
  | loadStagger (x z : ℤ)
  /-- the stagger-removal callback of `ensureChunksAround` (lines 248–256) -/
  | evict (k : Key)
  /-- the retry-backoff callback of `attemptLoad` (lines 152–156):
  `if (!disposed && inflight.has(key)) attemptLoad(rc)`; `cx`/`cz` are the
  coordinates captured by the `attemptLoad` closure -/
  | retry (k : Key) (cx cz : ℤ) (rc : ℕ)
deriving DecidableEq

/-- A pending `setTimeout` timer: its handle, absolute fire time (creation
time plus delay, in ms) and callback. -/
structure Timer where
  id : ℕ
  fireAt : ℕ
  act : TAct
deriving DecidableEq

/-- An outstanding `fetch` for `/api/chunk?...&cx={cx}&cz={cz}...`, issued by
the invocation `attemptLoad(rc)` of the load sequence for `key`. -/
structure FetchReq where
  id : ℕ
  key : Key
  cx : ℤ
  cz : ℤ
  rc : ℕ
  issuedAt : ℕ
deriving DecidableEq

/-- The network oracle's outcome for a fetch: `ok body` is an HTTP 200
response whose `arrayBuffer()` is `body`; `fail` is any rejection or non-ok
status (network error, HTTP non-success, or the 10 s abort timer firing) —
all of these reach the `catch` block the same way. -/
inductive FOut where
  | ok (body : List ℕ)
  | fail
deriving DecidableEq

/-- The mutable state captured by the `useEffect` closure, plus ghost
history fields (instrumentation only, never read by `step`). -/
structure St where
  /-- current time in ms (advanced by event timestamps) -/
  now : ℕ
  /-- `let disposed = false` (line 53) -/
  disposed : Bool
  /-- `const loaded = new Map<string, THREE.Group>()` (line 51); the value is
  a ghost id standing for the `THREE.Group` object -/
  loaded : List (Key × ℕ)
  /-- `const inflight = new Set<string>()` (line 52) -/
  inflight : List Key
  /-- `const chunkLoadQueue = new Map<...>()` (line 58); its values
  `{priority, retries}` are written but never read, so only keys are kept -/
  queue : List Key
  /-- pending `setTimeout` timers (handles are never stored by the source,
  so none can be cancelled) -/
  timers : List Timer
  /-- outstanding (unresolved) fetches -/
  fetches : List FetchReq
  /-- fresh-id counter for timers, fetches and groups -/
  nextId : ℕ
  /-- ghost: every buffer ever passed to `buildInstancedChunk` -/
  builds : List (List ℕ)
  /-- ghost: key of every chunk subtree ever passed to `worldGroup.add` -/
  attachLog : List Key
  /-- ghost: every `loaded.set(key, ...)` that hit an already present key -/
  overwrites : List Key
  /-- ghost: every invocation of the local fallback generator -/
  fallbacks : List Key
  /-- ghost: every fetch ever issued -/
  fetchLog : List FetchReq
deriving DecidableEq

/-- The state right after the `useEffect` body initialises its locals. -/
def init : St :=
  { now := 0, disposed := false, loaded := [], inflight := [], queue := []
    timers := [], fetches := [], nextId := 0, builds := [], attachLog := []
    overwrites := [], fallbacks := [], fetchLog := [] }

/-! ## Transitions -/

/-- Modelled from the spec: the local fallback
(`generateChunk(CHUNK, BASE_BLOCK)` followed by the two `PaintLayer` calls,
source lines 163–167; all in `lib/three`, not part of the streaming source)
produces a voxel grid of length exactly `CHUNK³` filled with block ids.  The
grid's contents (including the randomized dirt depth) are irrelevant to every
claim, so they are modelled as the base block. -/
def localChunkGrid (cfg : Cfg) : List ℕ :=
  List.replicate (cfg.chunk * cfg.chunk * cfg.chunk) cfg.base

/-- Lines 125–139 / 170–188: `buildInstancedChunk`, the debug hull helper,
positioning, `worldGroup.add(group)` and `loaded.set(key, group)`.  The group
is a fresh ghost id.  Note that `Map.set` silently overwrites an existing
entry; the `overwrites` ghost records when that happens. -/
def publishChunk (s : St) (k : Key) (buf : List ℕ) : St :=
  { s with
    builds := s.builds ++ [buf]
    attachLog := s.attachLog ++ [k]
    overwrites := if k ∈ keysOf s.loaded then s.overwrites ++ [k] else s.overwrites
    loaded := mapSet s.loaded k s.nextId
    nextId := s.nextId + 1 }

/-- The `finally` block of `attemptLoad` (lines 195–198):
`inflight.delete(key); chunkLoadQueue.delete(key)`. -/
def finallyClear (s : St) (k : Key) : St :=
  { s with inflight := setDel s.inflight k, queue := setDel s.queue k }

/-- Issue the HTTP request of `attemptLoad` (lines 81–93): the synchronous
prefix up to `await fetch(url, ...)`. -/
def issueFetch (s : St) (k : Key) (cx cz : ℤ) (rc : ℕ) : St :=
  let f : FetchReq :=
    { id := s.nextId, key := k, cx := cx, cz := cz, rc := rc, issuedAt := s.now }
  { s with
    fetches := s.fetches ++ [f]
    fetchLog := s.fetchLog ++ [f]
    nextId := s.nextId + 1 }

/-- `loadChunkAt(cx, cz, priority)` (lines 69–75 and the synchronous prefix
of `attemptLoad(0)`): the guard, queue/in-flight registration, and the first
fetch.  The `priority` argument is only ever stored into the write-only
`chunkLoadQueue` value, so it does not appear in the model; the `disposed`
re-check at attemptLoad entry (line 78) runs in the same synchronous block as
the line-71 guard and is subsumed by it. -/
def loadChunkAtStep (s : St) (cx cz : ℤ) : St :=
  let k := keyOf cx cz
  if k ∈ keysOf s.loaded ∨ k ∈ s.inflight ∨ s.disposed = true then s
  else issueFetch { s with queue := setAdd s.queue k, inflight := setAdd s.inflight k } k cx cz 0

/-- The `catch` block of `attemptLoad` (lines 143–194) for the invocation
`attemptLoad(rc)` of the load sequence for `k`: schedule a retry-backoff
timer when `rc < maxRetries && !disposed`, otherwise run the local fallback
(whose publication is guarded by `!disposed`, line 169).  Either way the
`finally` block (lines 195–198) runs afterwards. -/
def catchPath (cfg : Cfg) (s : St) (k : Key) (cx cz : ℤ) (rc : ℕ) : St :=
  if rc < maxRetries ∧ s.disposed = false then
    let tm : Timer :=
      { id := s.nextId, fireAt := s.now + retryDelay rc, act := TAct.retry k cx cz (rc + 1) }
    finallyClear { s with timers := s.timers ++ [tm], nextId := s.nextId + 1 } k
  else
    let s1 := { s with fallbacks := s.fallbacks ++ [k] }
    let s2 := if s1.disposed = false then publishChunk s1 k (localChunkGrid cfg) else s1
    finallyClear s2 k

/-- Resolution of the fetch `fid`: the continuation of `attemptLoad` after
`await fetch` / `await res.arrayBuffer()` (lines 95–198).  A body whose
length is `0` or differs from `CHUNK³` throws before any publication (lines
108–115) and lands in `catch`; otherwise the `disposed` re-check (line 118)
either discards the result or the chunk is built, attached and published. -/
def resolveStep (cfg : Cfg) (s : St) (fid : ℕ) (out : FOut) : St :=
  match s.fetches.find? (fun f => decide (f.id = fid)) with
  | none => s
  | some f =>
    let s1 := { s with fetches := s.fetches.filter (fun g => decide (g.id ≠ fid)) }
    match out with
    | FOut.ok body =>
      if body.length = 0 ∨ body.length ≠ cfg.chunk * cfg.chunk * cfg.chunk then
        catchPath cfg s1 f.key f.cx f.cz f.rc
      else if s1.disposed = true then finallyClear s1 f.key
      else finallyClear (publishChunk s1 f.key body) f.key
    | FOut.fail => catchPath cfg s1 f.key f.cx f.cz f.rc

/-- Firing of the `setTimeout` timer `tid` (a no-op unless the timer is
pending and due).  The timer is consumed; its callback is one of the three
`TAct`s. -/
def fireTimerStep (s : St) (tid : ℕ) : St :=
  match s.timers.find? (fun x => decide (x.id = tid)) with
  | none => s
  | some tm =>
    if s.now < tm.fireAt then s
    else
      let s1 := { s with timers := s.timers.filter (fun x => decide (x.id ≠ tid)) }
      match tm.act with
      | TAct.loadStagger x z =>
        if s1.disposed = true then s1 else loadChunkAtStep s1 x z
      | TAct.evict k =>
        match mapFind s1.loaded k with
        | none => s1
        | some _ => { s1 with loaded := mapDel s1.loaded k }
      | TAct.retry k cx cz rc =>
        if s1.disposed = false ∧ k ∈ s1.inflight then issueFetch s1 k cx cz rc else s1

/-! ## `ensureChunksAround` -/

/-- One entry of the `chunksToLoad` candidate list (lines 206, 221).  The
source stores `{x, z, priority}` with the float
`priority = Math.max(0, VIEW_RADIUS - Math.sqrt(dx*dx + dz*dz))`; the model
stores the squared offset distance `dsq = dx*dx + dz*dz` instead, because
`priority` is read only by the sort comparator and is strictly decreasing in
`min dsq VIEW_RADIUS²` (`realPriority` below recovers the exact float value,
and the order equivalence is proved as `candLE_realPriority_anti`). -/
structure Cand where
  x : ℤ
  z : ℤ
  dsq : ℤ
deriving DecidableEq

/-- Sorting key equivalent to descending `priority`: ascending
`min dsq VIEW_RADIUS²` (the `Math.max(0, ...)` clamp makes every candidate
with `dsq ≥ VIEW_RADIUS²` tie at priority `0`). -/
def sortKey (c : Cand) : ℤ := min c.dsq (VIEW_RADIUS * VIEW_RADIUS)

/-- The total preorder the stable sort of line 226 realises:
`(a, b) => b.priority - a.priority` orders by descending priority. -/
def candLE (a b : Cand) : Prop := sortKey a ≤ sortKey b

instance : DecidableRel candLE := fun a b => inferInstanceAs (Decidable (sortKey a ≤ sortKey b))

instance : IsTotal Cand candLE := ⟨fun a b => le_total (sortKey a) (sortKey b)⟩

instance : IsTrans Cand candLE := ⟨fun _ _ _ hab hbc => le_trans hab hbc⟩

/-- The exact per-candidate priority of line 219,
`Math.max(0, VIEW_RADIUS - Math.sqrt(dx*dx + dz*dz))`, as a real number (for
the integer squared distances in range, double arithmetic is exact enough
that float comparisons agree with the real ones). -/
noncomputable def realPriority (c : Cand) : ℝ :=
  max 0 ((VIEW_RADIUS : ℝ) - Real.sqrt (c.dsq : ℝ))

/-- The loop offsets `-VIEW_RADIUS ... VIEW_RADIUS` of lines 208–209, in
iteration order. -/
def offsets : List ℤ := (List.range 13).map (fun i => (i : ℤ) - VIEW_RADIUS)

/-- Concatenation of the rows produced by the nested candidate loops. -/
def listJoin : List (List α) → List α
  | [] => []
  | l :: ls => l ++ listJoin ls

/-- The candidate list of lines 206–223, in loop order (`dz` outer, `dx`
inner): every key in the `(2·VIEW_RADIUS+1)²` square that is neither loaded
nor in-flight. -/
def candList (s : St) (cx cz : ℤ) : List Cand :=
  listJoin (offsets.map (fun dz =>
    offsets.filterMap (fun dx =>
      if keyOf (cx + dx) (cz + dz) ∈ keysOf s.loaded ∨ keyOf (cx + dx) (cz + dz) ∈ s.inflight
      then none
      else some { x := cx + dx, z := cz + dz, dsq := dx * dx + dz * dz })))

/-- Line 226: `chunksToLoad.sort((a, b) => b.priority - a.priority)`.
`Array.prototype.sort` is stable (ES2019), and a stable sort by a total
preorder has a unique result, here realised by insertion sort. -/
def ensureLoadList (s : St) (cx cz : ℤ) : List Cand :=
  List.insertionSort candLE (candList s cx cz)

/-- The keep/evict test of lines 240–241 on a single key:
`Math.abs(gx - cx) > VIEW_RADIUS + 1 || Math.abs(gz - cz) > VIEW_RADIUS + 1`
after parsing `(gx, gz)` from the key; a `NaN` from a malformed key compares
false. -/
def evictCond (cx cz : ℤ) (k : Key) : Bool :=
  match parseKey k with
  | (some gx, some gz) =>
    decide (VIEW_RADIUS + 1 < |gx - cx| ∨ VIEW_RADIUS + 1 < |gz - cz|)
  | _ => false

/-- The `chunksToRemove` list of lines 238–244, in registry iteration
order. -/
def ensureEvictList (s : St) (cx cz : ℤ) : List Key :=
  (s.loaded.filter (fun p => evictCond cx cz p.1)).map Prod.fst

/-- Schedule a staggered batch: the `i`-th action fires `i · d` ms after
`t0` (the `index * 50` / `index * 10` patterns of lines 234 and 256). -/
def stagger : ℕ → ℕ → ℕ → ℕ → List TAct → List Timer
  | _, _, _, _, [] => []
  | nid, t0, d, i, a :: as =>
    { id := nid, fireAt := t0 + i * d, act := a } :: stagger (nid + 1) t0 d (i + 1) as

/-- `ensureChunksAround(cx, cz)` (lines 204–258): collect candidates, sort by
descending priority, schedule the `i`-th load `i · 50` ms from now, scan the
registry for far chunks and schedule the `i`-th removal `i · 10` ms from now.
The body is fully synchronous, hence one transition.  Its only call sites
(the mount-time call of line 261 and the camera handler of lines 304–313)
run before the cleanup cancels the animation frame, so the transition is
guarded by `disposed`. -/
def ensureStep (s : St) (cx cz : ℤ) : St :=
  if s.disposed = true then s
  else
    let cands := ensureLoadList s cx cz
    let removals := ensureEvictList s cx cz
    { s with
      timers := s.timers
        ++ stagger s.nextId s.now 50 0 (cands.map (fun c => TAct.loadStagger c.x c.z))
        ++ stagger (s.nextId + cands.length) s.now 10 0 (removals.map TAct.evict)
      nextId := s.nextId + cands.length + removals.length }

/-! ## Events and traces -/

/-- An observable event: each carries the wall-clock time `t` (ms) at which
it occurs.  `load` is the firing of a stagger-load callback for `(cx, cz)`
(equivalently a direct `loadChunkAt` invocation — the function's own line-71
guard re-checks `disposed`); `resolve` is the settlement of fetch `fid` with
the network oracle's outcome; `fire` is the firing of timer `tid`;
`ensure` is a camera-update (or mount-time) call of `ensureChunksAround`;
`dispose` is the `useEffect` cleanup (lines 322–348). -/
inductive Ev where
  | load (cx cz : ℤ) (t : ℕ)
  | resolve (fid : ℕ) (out : FOut) (t : ℕ)
  | fire (tid : ℕ) (t : ℕ)
  | ensure (cx cz : ℤ) (t : ℕ)
  | dispose (t : ℕ)

/-- Advance the clock monotonically to the event's timestamp. -/
def tick (s : St) (t : ℕ) : St := { s with now := max s.now t }

/-- One step of the machine.  The cleanup (lines 322–348) sets `disposed`,
clears `chunkLoadQueue`, `inflight` and `loaded` — and nothing else: no
`setTimeout` handle was ever stored so no timer can be cancelled, and no
outstanding fetch is aborted (each per-attempt `AbortController` is local to
its attempt and only driven by the 10 s timeout). -/
def step (cfg : Cfg) (s : St) : Ev → St
  | Ev.load cx cz t => loadChunkAtStep (tick s t) cx cz
  | Ev.resolve fid out t => resolveStep cfg (tick s t) fid out
  | Ev.fire tid t => fireTimerStep (tick s t) tid
  | Ev.ensure cx cz t => ensureStep (tick s t) cx cz
  | Ev.dispose t =>
    { tick s t with disposed := true, queue := [], inflight := [], loaded := [] }

/-- Run a trace of events. -/
def run (cfg : Cfg) (s : St) (evs : List Ev) : St := evs.foldl (step cfg) s

/-- A tiny concrete configuration for witnesses and counterexamples: the
spec only requires `CHUNK` to be an integer `> 1` (its own scenarios use
`CHUNK = 16`; `CHUNK = 2` keeps closed evaluations small). -/
def cfg2 : Cfg := { chunk := 2, base := 1 }

/-- A correct-size response body for `cfg2` (`2³ = 8` bytes of block 1). -/
def body8 : List ℕ := List.replicate 8 1

/-! ## Decimal rendering and parsing lemmas -/

theorem decVal_decChar {d : ℕ} (h : d < 10) : decVal (decChar d) = d := by
  interval_cases d <;> decide

theorem decChar_isDigit {d : ℕ} (h : d < 10) : (decChar d).isDigit = true := by
  interval_cases d <;> decide

theorem decChar_ne_dash {d : ℕ} (h : d < 10) : decChar d ≠ dash := by
  interval_cases d <;> decide

theorem decChar_ne_comma {d : ℕ} (h : d < 10) : decChar d ≠ comma := by
  interval_cases d <;> decide

theorem mem_natCharsAux {fuel n : ℕ} {c : Char} (h : c ∈ natCharsAux fuel n) :
    ∃ d, d < 10 ∧ c = decChar d := by
  induction fuel generalizing n with
  | zero => simp [natCharsAux] at h
  | succ fuel ih =>
    rw [natCharsAux] at h
    split at h
    · next hn => simp at h; exact ⟨n, hn, h⟩
    · next hn =>
      rcases List.mem_append.mp h with h1 | h1
      · exact ih h1
      · simp at h1
        exact ⟨n % 10, Nat.mod_lt _ (by norm_num), h1⟩

theorem natCharsAux_ne_nil {fuel n : ℕ} (h : 0 < fuel) : natCharsAux fuel n ≠ [] := by
  cases fuel with
  | zero => omega
  | succ fuel =>
    rw [natCharsAux]
    split
    · simp
    · simp

theorem parseNat_append_singleton (A : List Char) (c : Char) :
    parseNat (A ++ [c]) = parseNat A * 10 + decVal c := by
  simp [parseNat, List.foldl_append]

theorem parseNat_natCharsAux : ∀ fuel n, n < fuel → parseNat (natCharsAux fuel n) = n := by
  intro fuel
  induction fuel with
  | zero => omega
  | succ fuel ih =>
    intro n hn
    rw [natCharsAux]
    split
    · next h10 => simp [parseNat, decVal_decChar h10]
    · next h10 =>
      rw [parseNat_append_singleton, ih (n / 10) (by omega),
        decVal_decChar (Nat.mod_lt _ (by norm_num))]
      omega

theorem mem_natChars {n : ℕ} {c : Char} (h : c ∈ natChars n) :
    ∃ d, d < 10 ∧ c = decChar d := mem_natCharsAux h

theorem natChars_ne_nil (n : ℕ) : natChars n ≠ [] :=
  natCharsAux_ne_nil (Nat.succ_pos n)

theorem parseNat_natChars (n : ℕ) : parseNat (natChars n) = n :=
  parseNat_natCharsAux (n + 1) n (Nat.lt_succ_self n)

theorem comma_not_mem_intChars (i : ℤ) : comma ∉ intChars i := by
  intro h
  rw [intChars] at h
  split at h
  · rcases List.mem_cons.mp h with h | h
    · exact absurd h (by decide)
    · obtain ⟨d, hd, hc⟩ := mem_natChars h
      exact decChar_ne_comma hd hc.symm
  · obtain ⟨d, hd, hc⟩ := mem_natChars h
    exact decChar_ne_comma hd hc.symm

theorem takeWhile_isDigit_natChars (n : ℕ) :
    (natChars n).takeWhile Char.isDigit = natChars n := by
  rw [List.takeWhile_eq_self_iff]
  intro c hc
  obtain ⟨d, hd, hc'⟩ := mem_natChars hc
  exact hc' ▸ decChar_isDigit hd

theorem parseIntJS_natChars (n : ℕ) : parseIntJS (natChars n) = some (n : ℤ) := by
  rcases hc : natChars n with _ | ⟨c, rest⟩
  · exact absurd hc (natChars_ne_nil n)
  · have hdash : ¬ c = dash := by
      have hm : c ∈ natChars n := by rw [hc]; exact List.mem_cons_self c rest
      obtain ⟨d, hd, hcd⟩ := mem_natChars hm
      exact hcd ▸ decChar_ne_dash hd
    have htw : (c :: rest).takeWhile Char.isDigit = c :: rest := by
      rw [← hc, takeWhile_isDigit_natChars]
    have hp : parseNat (c :: rest) = n := by rw [← hc, parseNat_natChars]
    rw [parseIntJS, if_neg hdash, htw]
    show some ((parseNat (c :: rest) : ℤ)) = some (n : ℤ)
    rw [hp]

theorem parseIntJS_intChars (i : ℤ) : parseIntJS (intChars i) = some i := by
  rw [intChars]
  split
  · next hneg =>
    have htw : (natChars i.natAbs).takeWhile Char.isDigit = natChars i.natAbs :=
      takeWhile_isDigit_natChars _
    have hp : parseNat (natChars i.natAbs) = i.natAbs := parseNat_natChars _
    rcases hc : natChars i.natAbs with _ | ⟨c, rest⟩
    · exact absurd hc (natChars_ne_nil _)
    · rw [hc] at htw hp
      rw [parseIntJS, if_pos rfl, htw]
      show some (-(parseNat (c :: rest) : ℤ)) = some i
      rw [hp]
      congr 1
      omega
  · next hpos =>
    rw [parseIntJS_natChars]
    congr 1
    omega

theorem splitComma_no_comma {A : List Char} (h : comma ∉ A) : splitComma A = [A] := by
  induction A with
  | nil => rfl
  | cons c rest ih =>
    rw [splitComma]
    have hc : ¬ c = comma := fun hc => h (hc ▸ List.mem_cons_self c rest)
    rw [if_neg hc, ih (fun hm => h (List.mem_cons_of_mem c hm))]

theorem splitComma_append {A : List Char} (B : List Char) (h : comma ∉ A) :
    splitComma (A ++ comma :: B) = A :: splitComma B := by
  induction A with
  | nil => simp [splitComma]
  | cons c rest ih =>
    have hc : ¬ c = comma := fun hc => h (hc ▸ List.mem_cons_self c rest)
    rw [List.cons_append, splitComma, if_neg hc,
      ih (fun hm => h (List.mem_cons_of_mem c hm))]

theorem splitComma_keyOf (cx cz : ℤ) :
    splitComma (keyOf cx cz) = [intChars cx, intChars cz] := by
  rw [keyOf, splitComma_append (intChars cz) (comma_not_mem_intChars cx),
    splitComma_no_comma (comma_not_mem_intChars cz)]

theorem parseKey_keyOf (cx cz : ℤ) : parseKey (keyOf cx cz) = (some cx, some cz) := by
  rw [parseKey, splitComma_keyOf, List.map_cons, List.map_cons, List.map_nil,
    parseIntJS_intChars, parseIntJS_intChars]

/-! ## Map/Set operation lemmas -/

theorem not_mem_setDel (l : List Key) (k : Key) : k ∉ setDel l k := by
  simp [setDel, List.mem_filter]

theorem setDel_nil (k : Key) : setDel [] k = [] := rfl

theorem keysOf_mapSet_of_mem {m : List (Key × ℕ)} {k : Key} (v : ℕ)
    (h : k ∈ keysOf m) : keysOf (mapSet m k v) = keysOf m := by
  rw [mapSet, if_pos h, keysOf, keysOf, List.map_map]
  apply List.map_congr_left
  intro p _
  by_cases hp : p.1 = k
  · simp [hp]
  · simp [hp]

theorem keysOf_mapSet_of_not_mem {m : List (Key × ℕ)} {k : Key} (v : ℕ)
    (h : k ∉ keysOf m) : keysOf (mapSet m k v) = keysOf m ++ [k] := by
  rw [mapSet, if_neg h, keysOf, keysOf, List.map_append]
  rfl

theorem nodup_keysOf_mapSet {m : List (Key × ℕ)} {k : Key} (v : ℕ)
    (h : (keysOf m).Nodup) : (keysOf (mapSet m k v)).Nodup := by
  by_cases hk : k ∈ keysOf m
  · rw [keysOf_mapSet_of_mem v hk]; exact h
  · rw [keysOf_mapSet_of_not_mem v hk]
    simp [List.nodup_append, h, hk]

theorem nodup_keysOf_mapDel {m : List (Key × ℕ)} (k : Key)
    (h : (keysOf m).Nodup) : (keysOf (mapDel m k)).Nodup :=
  List.Nodup.sublist ((List.filter_sublist m).map Prod.fst) h

/-! ## The global invariant: registry key uniqueness, disposal emptiness,
and Materializer buffer length -/

/-- The inductive invariant of the machine: (1) the registry never holds two
records for one key; (2) after disposal the registry, in-flight set and load
queue are empty; (3) every buffer ever handed to `buildInstancedChunk` has
length exactly `CHUNK³`. -/
def Inv (cfg : Cfg) (s : St) : Prop :=
  (keysOf s.loaded).Nodup ∧
  (s.disposed = true → s.loaded = [] ∧ s.inflight = [] ∧ s.queue = []) ∧
  (∀ b ∈ s.builds, b.length = cfg.chunk * cfg.chunk * cfg.chunk)

theorem inv_init (cfg : Cfg) : Inv cfg init :=
  ⟨List.nodup_nil, fun _ => ⟨rfl, rfl, rfl⟩, fun b hb => absurd hb (List.not_mem_nil b)⟩

theorem inv_finallyClear {cfg : Cfg} {s : St} (k : Key) (h : Inv cfg s) :
    Inv cfg (finallyClear s k) := by
  refine ⟨h.1, ?_, h.2.2⟩
  intro hd
  obtain ⟨hl, hi, hq⟩ := h.2.1 hd
  refine ⟨hl, ?_, ?_⟩
  · show setDel s.inflight k = []
    rw [hi]; rfl
  · show setDel s.queue k = []
    rw [hq]; rfl

theorem inv_publishChunk {cfg : Cfg} {s : St} {k : Key} {buf : List ℕ}
    (h : Inv cfg s) (hd : s.disposed = false)
    (hb : buf.length = cfg.chunk * cfg.chunk * cfg.chunk) :
    Inv cfg (publishChunk s k buf) := by
  refine ⟨nodup_keysOf_mapSet _ h.1, ?_, ?_⟩
  · intro hd'
    exact absurd (show s.disposed = true from hd') (by rw [hd]; simp)
  · intro b hb'
    rcases List.mem_append.mp hb' with hm | hm
    · exact h.2.2 b hm
    · simp at hm
      rw [hm]; exact hb

theorem inv_catchPath {cfg : Cfg} {s : St} (k : Key) (cx cz : ℤ) (rc : ℕ)
    (h : Inv cfg s) : Inv cfg (catchPath cfg s k cx cz rc) := by
  rw [catchPath]
  split
  · exact inv_finallyClear k h
  · apply inv_finallyClear
    split
    · next hd =>
      exact inv_publishChunk h hd (by simp [localChunkGrid])
    · exact h

theorem inv_loadChunkAtStep {cfg : Cfg} {s : St} (cx cz : ℤ) (h : Inv cfg s) :
    Inv cfg (loadChunkAtStep s cx cz) := by
  rw [loadChunkAtStep]
  split
  · exact h
  · next hg =>
    push_neg at hg
    refine ⟨h.1, ?_, h.2.2⟩
    intro hd
    exact absurd hd hg.2.2

theorem inv_resolveStep {cfg : Cfg} {s : St} (fid : ℕ) (out : FOut) (h : Inv cfg s) :
    Inv cfg (resolveStep cfg s fid out) := by
  rw [resolveStep]
  split
  · exact h
  · next f _ =>
    have h1 : Inv cfg { s with fetches := s.fetches.filter (fun g => decide (g.id ≠ fid)) } :=
      ⟨h.1, h.2.1, h.2.2⟩
    dsimp only
    split
    · next body =>
      split
      · exact inv_catchPath _ _ _ _ h1
      · split
        · exact inv_finallyClear _ h1
        · next hlen hd =>
          push_neg at hlen
          apply inv_finallyClear
          exact inv_publishChunk h1 (by simpa using hd) hlen.2
    · exact inv_catchPath _ _ _ _ h1

theorem inv_fireTimerStep {cfg : Cfg} {s : St} (tid : ℕ) (h : Inv cfg s) :
    Inv cfg (fireTimerStep s tid) := by
  rw [fireTimerStep]
  split
  · exact h
  · next tm _ =>
    split
    · exact h
    · have h1 : Inv cfg { s with timers := s.timers.filter (fun x => decide (x.id ≠ tid)) } :=
        ⟨h.1, h.2.1, h.2.2⟩
      dsimp only
      split
      · split
        · exact h1
        · exact inv_loadChunkAtStep _ _ h1
      · next k hk =>
        split
        · exact h1
        · refine ⟨nodup_keysOf_mapDel _ h1.1, ?_, h1.2.2⟩
          intro hd
          obtain ⟨hl, hi, hq⟩ := h1.2.1 hd
          refine ⟨?_, hi, hq⟩
          show mapDel s.loaded k = []
          rw [show s.loaded = [] from hl]; rfl
      · split
        · exact ⟨h1.1, h1.2.1, h1.2.2⟩
        · exact h1

theorem inv_ensureStep {cfg : Cfg} {s : St} (cx cz : ℤ) (h : Inv cfg s) :
    Inv cfg (ensureStep s cx cz) := by
  rw [ensureStep]
  split
  · exact h
  · exact ⟨h.1, h.2.1, h.2.2⟩

theorem inv_step {cfg : Cfg} {s : St} (e : Ev) (h : Inv cfg s) : Inv cfg (step cfg s e) := by
  cases e with
  | load cx cz t => exact inv_loadChunkAtStep _ _ ⟨h.1, h.2.1, h.2.2⟩
  | resolve fid out t => exact inv_resolveStep _ _ ⟨h.1, h.2.1, h.2.2⟩
  | fire tid t => exact inv_fireTimerStep _ ⟨h.1, h.2.1, h.2.2⟩
  | ensure cx cz t => exact inv_ensureStep _ _ ⟨h.1, h.2.1, h.2.2⟩
  | dispose t =>
    exact ⟨List.nodup_nil, fun _ => ⟨rfl, rfl, rfl⟩, h.2.2⟩

theorem inv_run {cfg : Cfg} {s : St} (evs : List Ev) (h : Inv cfg s) :
    Inv cfg (run cfg s evs) := by
  induction evs generalizing s with
  | nil => exact h
  | cons e evs ih => exact ih (inv_step e h)

/-! ## After disposal the machine is frozen -/

/-- The state established by the cleanup: disposed, with registry, in-flight
set and load queue empty. -/
def Frozen (s : St) : Prop :=
  s.disposed = true ∧ s.loaded = [] ∧ s.inflight = [] ∧ s.queue = []

theorem frozen_finallyClear {s : St} (k : Key) (h : Frozen s) :
    Frozen (finallyClear s k) := by
  refine ⟨h.1, h.2.1, ?_, ?_⟩
  · show setDel s.inflight k = []
    rw [h.2.2.1]; rfl
  · show setDel s.queue k = []
    rw [h.2.2.2]; rfl

theorem frozen_catchPath {cfg : Cfg} {s : St} (k : Key) (cx cz : ℤ) (rc : ℕ)
    (h : Frozen s) :
    Frozen (catchPath cfg s k cx cz rc) ∧
      (catchPath cfg s k cx cz rc).attachLog = s.attachLog := by
  rw [catchPath]
  rw [if_neg (fun hc => by rw [h.1] at hc; exact absurd hc.2 (by simp))]
  dsimp only
  rw [if_neg (fun hc : s.disposed = false => by rw [h.1] at hc; exact absurd hc (by simp))]
  exact ⟨frozen_finallyClear k ⟨h.1, h.2.1, h.2.2.1, h.2.2.2⟩, rfl⟩

theorem frozen_loadChunkAtStep {s : St} (cx cz : ℤ) (h : Frozen s) :
    loadChunkAtStep s cx cz = s := by
  rw [loadChunkAtStep, if_pos (Or.inr (Or.inr h.1))]

theorem frozen_resolveStep {cfg : Cfg} {s : St} (fid : ℕ) (out : FOut) (h : Frozen s) :
    Frozen (resolveStep cfg s fid out) ∧ (resolveStep cfg s fid out).attachLog = s.attachLog := by
  rw [resolveStep]
  split
  · exact ⟨h, rfl⟩
  · next f _ =>
    have h1 : Frozen { s with fetches := s.fetches.filter (fun g => decide (g.id ≠ fid)) } :=
      ⟨h.1, h.2.1, h.2.2.1, h.2.2.2⟩
    dsimp only
    split
    · split
      · exact frozen_catchPath _ _ _ _ h1
      · split
        · exact ⟨frozen_finallyClear _ h1, rfl⟩
        · next hd => exact absurd h.1 (by simpa using hd)
    · exact frozen_catchPath _ _ _ _ h1

theorem frozen_fireTimerStep {s : St} (tid : ℕ) (h : Frozen s) :
    Frozen (fireTimerStep s tid) ∧ (fireTimerStep s tid).attachLog = s.attachLog := by
  rw [fireTimerStep]
  split
  · exact ⟨h, rfl⟩
  · next tm _ =>
    split
    · exact ⟨h, rfl⟩
    · have h1 : Frozen { s with timers := s.timers.filter (fun x => decide (x.id ≠ tid)) } :=
        ⟨h.1, h.2.1, h.2.2.1, h.2.2.2⟩
      dsimp only
      split
      · rw [if_pos h.1]
        exact ⟨h1, rfl⟩
      · next k hk =>
        rcases hm : mapFind s.loaded k with _ | g
        · exact ⟨h1, rfl⟩
        · rw [h.2.1] at hm
          exact absurd hm (by rw [mapFind]; simp)
      · rw [if_neg (fun hc => by rw [h.1] at hc; exact absurd hc.1 (by simp))]
        exact ⟨h1, rfl⟩

theorem frozen_ensureStep {s : St} (cx cz : ℤ) (h : Frozen s) :
    ensureStep s cx cz = s := by
  rw [ensureStep, if_pos h.1]

theorem frozen_step {cfg : Cfg} {s : St} (e : Ev) (h : Frozen s) :
    Frozen (step cfg s e) ∧ (step cfg s e).attachLog = s.attachLog := by
  have ht : ∀ t, Frozen (tick s t) := fun t => ⟨h.1, h.2.1, h.2.2.1, h.2.2.2⟩
  cases e with
  | load cx cz t =>
    show Frozen (loadChunkAtStep (tick s t) cx cz) ∧
      (loadChunkAtStep (tick s t) cx cz).attachLog = s.attachLog
    rw [frozen_loadChunkAtStep cx cz (ht t)]
    exact ⟨ht t, rfl⟩
  | resolve fid out t => exact frozen_resolveStep fid out (ht t)
  | fire tid t => exact frozen_fireTimerStep tid (ht t)
  | ensure cx cz t =>
    show Frozen (ensureStep (tick s t) cx cz) ∧
      (ensureStep (tick s t) cx cz).attachLog = s.attachLog
    rw [frozen_ensureStep cx cz (ht t)]
    exact ⟨ht t, rfl⟩
  | dispose t =>
    exact ⟨⟨rfl, rfl, rfl, rfl⟩, rfl⟩

theorem frozen_run {cfg : Cfg} {s : St} (evs : List Ev) (h : Frozen s) :
    Frozen (run cfg s evs) ∧ (run cfg s evs).attachLog = s.attachLog := by
  induction evs generalizing s with
  | nil => exact ⟨h, rfl⟩
  | cons e evs ih =>
    obtain ⟨h1, h2⟩ := @frozen_step cfg s e h
    obtain ⟨h3, h4⟩ := ih h1
    exact ⟨h3, h4.trans h2⟩

/-- Every control path through the `try`/`catch` of `attemptLoad` ends in the
`finally` block, so `catchPath` leaves the key in neither the in-flight set
nor the load queue. -/
theorem catchPath_clears {cfg : Cfg} {s : St} (k : Key) (cx cz : ℤ) (rc : ℕ) :
    k ∉ (catchPath cfg s k cx cz rc).inflight ∧ k ∉ (catchPath cfg s k cx cz rc).queue := by
  rw [catchPath]
  split
  · exact ⟨not_mem_setDel _ _, not_mem_setDel _ _⟩
  · dsimp only
    exact ⟨not_mem_setDel _ _, not_mem_setDel _ _⟩

/-! ## Claim theorems -/

/-- **C10** — `keyOf` round-trips through `split(',')` + `parseInt` and is
injective: splitting the key produced by `keyOf cx cz` at the comma and
parsing the two parts with `parseInt` returns exactly `(cx, cz)`, and two
coordinate pairs with the same key are equal. -/
theorem c10_keyOf_roundtrip_injective (cx cz cx' cz' : ℤ) :
    parseKey (keyOf cx cz) = (some cx, some cz) ∧
      (keyOf cx cz = keyOf cx' cz' → cx = cx' ∧ cz = cz') := by
  refine ⟨parseKey_keyOf cx cz, ?_⟩
  intro h
  have h2 : (some cx, some cz) = (some cx', some cz') := by
    rw [← parseKey_keyOf cx cz, ← parseKey_keyOf cx' cz', h]
  simp only [Prod.mk.injEq, Option.some.injEq] at h2
  exact h2

/-- Witness for C10 at the concrete pair `(3, -7)`. -/
theorem c10_witness :
    parseKey (keyOf 3 (-7)) = (some 3, some (-7)) ∧ ((3 : ℤ) = 3 ∧ (-7 : ℤ) = -7) :=
  ⟨(c10_keyOf_roundtrip_injective 3 (-7) 3 (-7)).1,
    (c10_keyOf_roundtrip_injective 3 (-7) 3 (-7)).2 rfl⟩

/-- The events of C1's failing input: the load of chunk `(0,0)` starts at
`t = 0 ms`, its only HTTP attempt fails (e.g. HTTP 500) at `t = 10 ms`
(scheduling the 1 s retry-backoff timer, handle `1`), and that timer fires
on schedule at `t = 1010 ms`. -/
def evsC1 : List Ev := [Ev.load 0 0 0, Ev.resolve 0 FOut.fail 10, Ev.fire 1 1010]

/-- **C1** — demonstration of the code bug on the failing input `evsC1`:
after the first retryable failure for chunk `(0,0)`, the `finally` block has
already removed the key from the in-flight set, so when the 1 s backoff
timer fires its guard `inflight.has(key)` is false.  Exactly one fetch is
ever issued (no retry), the fallback generator is never invoked, no chunk is
ever published, and no retry timer remains — contradicting the claimed
"3 retries then fallback exactly once". -/
theorem c1_retry_and_fallback_never_run :
    (run cfg2 init evsC1).fetchLog.length = 1 ∧
      (run cfg2 init evsC1).fallbacks = [] ∧
      (run cfg2 init evsC1).builds = [] ∧
      (run cfg2 init evsC1).loaded = [] ∧
      (run cfg2 init evsC1).timers = [] ∧
      (run cfg2 init evsC1).inflight = [] := by
  decide

/-- The events of C3's failing input: the load of `(0,0)` fails once at
`t = 10 ms` (scheduling the backoff timer and clearing the in-flight set);
a second `loadChunkAt(0, 0)` at `t = 500 ms` passes the line-71 guard and
issues a second fetch; the stale backoff timer fires at `t = 1010 ms`, sees
the key back in-flight, and issues a third fetch while the second is still
outstanding. -/
def evsC3 : List Ev :=
  [Ev.load 0 0 0, Ev.resolve 0 FOut.fail 10, Ev.load 0 0 500, Ev.fire 1 1010]

/-- **C3** — demonstration of the code bug on the failing input `evsC3`: two
fetches for the same key `"0,0"` are outstanding simultaneously, i.e. two
active load sequences exist for one key, contradicting the claimed in-flight
exclusion. -/
theorem c3_two_concurrent_fetches_same_key :
    (run cfg2 init evsC3).fetches.map FetchReq.key = [keyOf 0 0, keyOf 0 0] ∧
      (run cfg2 init evsC3).fetches.length = 2 := by
  decide

/-- The trace of C2's counterexample: one failed attempt for `(0,0)` at
`t = 10 ms` opens a retry-backoff window (timer `1`, due `t = 1010 ms`);
at `t = 500 ms` — inside that window — a fresh `loadChunkAt(0,0)` re-adds
the key to the in-flight set. -/
def evsC2 : List Ev := [Ev.load 0 0 0, Ev.resolve 0 FOut.fail 10, Ev.load 0 0 500]

/-- **C2 counterexample** — the claim's consequence "throughout any
retry-backoff window the key is absent from the in-flight set" is false: at
`t = 500 ms` the backoff timer of key `"0,0"` is still pending (due at
`t = 1010 ms`), yet the key is in the in-flight set. -/
theorem c2_inflight_during_backoff_cex :
    (∃ tm ∈ (run cfg2 init evsC2).timers,
        tm.act = TAct.retry (keyOf 0 0) 0 0 1 ∧ (run cfg2 init evsC2).now < tm.fireAt) ∧
      keyOf 0 0 ∈ (run cfg2 init evsC2).inflight := by
  decide

/-- **C2 (amended)** — whenever the continuation of an `attemptLoad`
invocation for a pending fetch runs to completion (any of: publication, the
post-`await` disposed discard, scheduling a retry-backoff timer, or the
fallback), its `finally` block removes the fetch's key from the in-flight
set and from the load queue; in particular the key is absent from the
in-flight set at the moment each retry-backoff window begins.  (A later
`loadChunkAt` for the same key may re-add it during the window.) -/
theorem c2_finally_clears_inflight_and_queue (cfg : Cfg) (s : St) (fid : ℕ)
    (out : FOut) (f : FetchReq)
    (hf : s.fetches.find? (fun x => decide (x.id = fid)) = some f) :
    f.key ∉ (resolveStep cfg s fid out).inflight ∧
      f.key ∉ (resolveStep cfg s fid out).queue := by
  rw [resolveStep, hf]
  dsimp only
  split
  · split
    · exact catchPath_clears _ _ _ _
    · split
      · exact ⟨not_mem_setDel _ _, not_mem_setDel _ _⟩
      · exact ⟨not_mem_setDel _ _, not_mem_setDel _ _⟩
  · exact catchPath_clears _ _ _ _

/-- Witness for C2: the state after `loadChunkAt(0,0)` has fetch `0` pending
for key `"0,0"`; resolving it (with a failure) leaves the key in neither the
in-flight set nor the load queue. -/
theorem c2_witness :
    keyOf 0 0 ∉ (resolveStep cfg2 (run cfg2 init [Ev.load 0 0 0]) 0 FOut.fail).inflight ∧
      keyOf 0 0 ∉ (resolveStep cfg2 (run cfg2 init [Ev.load 0 0 0]) 0 FOut.fail).queue :=
  c2_finally_clears_inflight_and_queue cfg2 (run cfg2 init [Ev.load 0 0 0]) 0 FOut.fail
    { id := 0, key := keyOf 0 0, cx := 0, cz := 0, rc := 0, issuedAt := 0 } (by decide)

/-- The trace of C4's counterexample, extending `evsC3`'s interleaving: the
stale retry fetch (id `3`) succeeds at `t = 1020 ms` and publishes `"0,0"`,
then the fresh sequence's fetch (id `2`) succeeds at `t = 1500 ms` and
publishes the same key again. -/
def evsC4 : List Ev :=
  [Ev.load 0 0 0, Ev.resolve 0 FOut.fail 10, Ev.load 0 0 500, Ev.fire 1 1010,
    Ev.resolve 3 (FOut.ok body8) 1020, Ev.resolve 2 (FOut.ok body8) 1500]

set_option maxRecDepth 100000 in
/-- **C4 counterexample** — a publication onto an already-present key is
reachable and silently overwrites: after `evsC4` the ghost `overwrites` log
records exactly one `loaded.set` that hit an existing `"0,0"` record, two
chunk subtrees were attached for that key, and no failure occurred (the
registry simply holds the second record) — contradicting "publishing onto an
already-present key is a DuplicatePublish failure, never a silent
overwrite". -/
theorem c4_silent_overwrite_cex :
    (run cfg2 init evsC4).overwrites = [keyOf 0 0] ∧
      keysOf (run cfg2 init evsC4).loaded = [keyOf 0 0] ∧
      (run cfg2 init evsC4).attachLog = [keyOf 0 0, keyOf 0 0] := by
  decide

/-- **C4 (amended)** — at every moment the registry holds at most one chunk
record per key (`Map` semantics: the key lists of all reachable registries
are duplicate-free); however a publish for a key that is already present is
reachable (a stale retry resumption racing a fresh load sequence) and
silently overwrites the existing record — there is no DuplicatePublish
failure. -/
theorem c4_at_most_one_record_per_key (cfg : Cfg) (evs : List Ev) :
    (keysOf (run cfg init evs).loaded).Nodup :=
  (inv_run evs (inv_init cfg)).1

/-- **C9** — every buffer ever passed to `buildInstancedChunk` in any
reachable state has length exactly `CHUNK³`: a fetched body of any other
length (including an empty one) throws before the Materializer is called,
and the fallback grid has length `CHUNK³` by construction. -/
theorem c9_materializer_buffer_length (cfg : Cfg) (evs : List Ev) (b : List ℕ)
    (hb : b ∈ (run cfg init evs).builds) :
    b.length = cfg.chunk * cfg.chunk * cfg.chunk :=
  (inv_run evs (inv_init cfg)).2.2 b hb

/-- Witness for C9: after a successful remote load of chunk `(0,0)` the
Materializer has been called once, on `body8`, whose length is `2³`. -/
theorem c9_witness :
    body8 ∈ (run cfg2 init [Ev.load 0 0 0, Ev.resolve 0 (FOut.ok body8) 10]).builds ∧
      body8.length = cfg2.chunk * cfg2.chunk * cfg2.chunk :=
  ⟨by decide,
    c9_materializer_buffer_length cfg2 [Ev.load 0 0 0, Ev.resolve 0 (FOut.ok body8) 10]
      body8 (by decide)⟩

/-- **C5** — disposal safety: from any reachable state whose `disposed` flag
is set, no continuation of the machine (fetch resolutions, timer firings,
further events of any kind) ever inserts a chunk record into the registry or
attaches a chunk subtree to the scene: the registry and in-flight set stay
empty and the attach history is frozen. -/
theorem c5_no_publish_after_disposal (cfg : Cfg) (evs evs' : List Ev)
    (hd : (run cfg init evs).disposed = true) :
    (run cfg (run cfg init evs) evs').loaded = [] ∧
      (run cfg (run cfg init evs) evs').inflight = [] ∧
      (run cfg (run cfg init evs) evs').attachLog = (run cfg init evs).attachLog := by
  have hinv := inv_run evs (inv_init cfg)
  obtain ⟨hl, hi, hq⟩ := hinv.2.1 hd
  obtain ⟨h1, h2⟩ := frozen_run evs' ⟨hd, hl, hi, hq⟩
  exact ⟨h1.2.1, h1.2.2.1, h2⟩

/-- Witness for C5: dispose while the fetch of chunk `(0,0)` is outstanding;
when that fetch later resolves successfully, its result is discarded — no
registry entry, no attachment. -/
theorem c5_witness :
    (run cfg2 init [Ev.load 0 0 0, Ev.dispose 5]).disposed = true ∧
      (run cfg2 (run cfg2 init [Ev.load 0 0 0, Ev.dispose 5])
        [Ev.resolve 0 (FOut.ok body8) 10]).loaded = [] ∧
      (run cfg2 (run cfg2 init [Ev.load 0 0 0, Ev.dispose 5])
        [Ev.resolve 0 (FOut.ok body8) 10]).attachLog =
        (run cfg2 init [Ev.load 0 0 0, Ev.dispose 5]).attachLog := by
  have h := c5_no_publish_after_disposal cfg2 [Ev.load 0 0 0, Ev.dispose 5]
    [Ev.resolve 0 (FOut.ok body8) 10] (by decide)
  exact ⟨by decide, h.1, h.2.2⟩

/-- The trace of C6's counterexample: chunk `(0,0)` fails once at
`t = 10 ms`, leaving its retry-backoff timer pending (due `t = 1010 ms`);
chunk `(1,0)` starts loading at `t = 20 ms`, leaving its fetch outstanding;
the cleanup runs at `t = 30 ms`. -/
def evsC6 : List Ev :=
  [Ev.load 0 0 0, Ev.resolve 0 FOut.fail 10, Ev.load 1 0 20, Ev.dispose 30]

/-- **C6 counterexample** — disposal does *not* cancel pending timers and
does *not* abort outstanding requests: after the cleanup of `evsC6` the
retry-backoff timer is still pending and the fetch for `"1,0"` is still
outstanding (the in-flight set, by contrast, is indeed left empty). -/
theorem c6_timers_and_fetches_survive_disposal_cex :
    (run cfg2 init evsC6).disposed = true ∧
      (run cfg2 init evsC6).timers =
        [{ id := 1, fireAt := 1010, act := TAct.retry (keyOf 0 0) 0 0 1 }] ∧
      (run cfg2 init evsC6).fetches.map FetchReq.key = [keyOf 1 0] ∧
      (run cfg2 init evsC6).inflight = [] := by
  decide

/-- **C6 (amended)** — when disposal runs, the disposed flag is set and the
in-flight set, load queue and registry are left empty, but pending schedule
timers are not cancelled and outstanding network requests are not aborted;
instead, every continuation that later runs observes the disposed flag (or
the emptied maps) and performs no registry mutation and no attachment. -/
theorem c6_dispose_clears_inflight_not_timers (cfg : Cfg) (s : St) (t : ℕ) :
    (step cfg s (Ev.dispose t)).disposed = true ∧
      (step cfg s (Ev.dispose t)).inflight = [] ∧
      (step cfg s (Ev.dispose t)).queue = [] ∧
      (step cfg s (Ev.dispose t)).loaded = [] ∧
      (step cfg s (Ev.dispose t)).timers = s.timers ∧
      (step cfg s (Ev.dispose t)).fetches = s.fetches ∧
      ∀ evs, (run cfg (step cfg s (Ev.dispose t)) evs).loaded = [] ∧
        (run cfg (step cfg s (Ev.dispose t)) evs).attachLog = s.attachLog := by
  refine ⟨rfl, rfl, rfl, rfl, rfl, rfl, ?_⟩
  intro evs
  obtain ⟨h1, h2⟩ := frozen_run evs (show Frozen (step cfg s (Ev.dispose t)) from ⟨rfl, rfl, rfl, rfl⟩)
  exact ⟨h1.2.1, h2⟩

/-- Membership in a staggered batch: the `j`-th action of the batch gets the
`j`-th fresh id and fires `(i + j) · d` ms after `t0`. -/
theorem mem_stagger (nid t0 d : ℕ) (acts : List TAct) :
    ∀ i j (hj : j < acts.length),
      ({ id := nid + j, fireAt := t0 + (i + j) * d, act := acts.get ⟨j, hj⟩ } : Timer) ∈
        stagger nid t0 d i acts := by
  induction acts generalizing nid with
  | nil => intro i j hj; simp at hj
  | cons a as ih =>
    intro i j hj
    cases j with
    | zero =>
      rw [stagger]
      apply List.mem_cons.mpr
      left
      simp
    | succ j' =>
      rw [stagger]
      apply List.mem_cons_of_mem
      have hj' : j' < as.length := by simpa using hj
      have h := ih (nid + 1) (i + 1) j' hj'
      have e1 : nid + (j' + 1) = nid + 1 + j' := by omega
      have e2 : i + (j' + 1) = i + 1 + j' := by omega
      have e3 : (a :: as).get ⟨j' + 1, hj⟩ = as.get ⟨j', hj'⟩ := rfl
      rw [e1, e2, e3]
      exact h

/-- **C8** — the eviction scan of `ensureChunksAround(cx, cz)`: a loaded
record whose key parses to `(gx, gz)` is scheduled for removal iff
`|gx - cx| > VIEW_RADIUS + 1` or `|gz - cz| > VIEW_RADIUS + 1`; the `i`-th
removal fires `i · 10` ms later; and a removal timer firing for a key that
is no longer present leaves the registry (and all other load state)
unchanged. -/
theorem c8_eviction_scan_correct (s : St) (cx cz gx gz : ℤ) (k : Key) (g : ℕ)
    (hk : (k, g) ∈ s.loaded) (hp : parseKey k = (some gx, some gz)) :
    (k ∈ ensureEvictList s cx cz ↔
      (VIEW_RADIUS + 1 < |gx - cx| ∨ VIEW_RADIUS + 1 < |gz - cz|)) ∧
      (s.disposed = false →
        ∀ i (hi : i < (ensureEvictList s cx cz).length),
          ∃ tm ∈ (ensureStep s cx cz).timers,
            tm.act = TAct.evict ((ensureEvictList s cx cz).get ⟨i, hi⟩) ∧
              tm.fireAt = s.now + i * 10) ∧
      (∀ k' tid ft, mapFind s.loaded k' = none →
        s.timers.find? (fun x => decide (x.id = tid)) =
          some { id := tid, fireAt := ft, act := TAct.evict k' } →
        (fireTimerStep s tid).loaded = s.loaded ∧
          (fireTimerStep s tid).inflight = s.inflight ∧
          (fireTimerStep s tid).queue = s.queue ∧
          (fireTimerStep s tid).fetches = s.fetches) := by
  refine ⟨?_, ?_, ?_⟩
  · constructor
    · intro hm
      obtain ⟨p, hpf, hp1⟩ := List.mem_map.mp hm
      obtain ⟨hpl, hcond⟩ := List.mem_filter.mp hpf
      rw [hp1] at hcond
      rw [evictCond, hp] at hcond
      exact of_decide_eq_true hcond
    · intro hc
      apply List.mem_map.mpr
      refine ⟨(k, g), List.mem_filter.mpr ⟨hk, ?_⟩, rfl⟩
      show evictCond cx cz k = true
      rw [evictCond, hp]
      exact decide_eq_true hc
  · intro hd i hi
    rw [ensureStep, if_neg (by rw [hd]; simp)]
    dsimp only
    have hi' : i < ((ensureEvictList s cx cz).map TAct.evict).length := by simpa using hi
    have h := mem_stagger (s.nextId + (ensureLoadList s cx cz).length) s.now 10
      ((ensureEvictList s cx cz).map TAct.evict) 0 i hi'
    refine ⟨_, List.mem_append.mpr (Or.inr h), ?_, ?_⟩
    · show ((ensureEvictList s cx cz).map TAct.evict).get ⟨i, hi'⟩ = _
      rw [List.get_map]
    · show s.now + (0 + i) * 10 = s.now + i * 10
      rw [Nat.zero_add]
  · intro k' tid ft hnone hfind
    rw [fireTimerStep, hfind]
    dsimp only
    split
    · exact ⟨rfl, rfl, rfl, rfl⟩
    · rw [hnone]
      exact ⟨rfl, rfl, rfl, rfl⟩

/-- Witness for C8: with only the far chunk `(20,0)` loaded and the camera
at `(0,0)`, that chunk is on the removal list (its Chebyshev distance `20`
exceeds `VIEW_RADIUS + 1 = 7`). -/
theorem c8_witness :
    keyOf 20 0 ∈
      ensureEvictList (run cfg2 init [Ev.load 20 0 0, Ev.resolve 0 (FOut.ok body8) 10]) 0 0 :=
  ((c8_eviction_scan_correct (run cfg2 init [Ev.load 20 0 0, Ev.resolve 0 (FOut.ok body8) 10])
      0 0 20 0 (keyOf 20 0) 1 (by decide) (by decide)).1).mpr (by decide)

/-! ## Load priority: the float priority and the integer sort key agree -/

theorem offsets_eq : offsets = [-6, -5, -4, -3, -2, -1, 0, 1, 2, 3, 4, 5, 6] := by
  decide

theorem mem_offsets {x : ℤ} : x ∈ offsets ↔ -VIEW_RADIUS ≤ x ∧ x ≤ VIEW_RADIUS := by
  rw [offsets_eq]
  simp only [List.mem_cons, List.not_mem_nil, or_false, VIEW_RADIUS]
  omega

theorem mem_listJoin {α : Type} {a : α} {ls : List (List α)} :
    a ∈ listJoin ls ↔ ∃ l ∈ ls, a ∈ l := by
  induction ls with
  | nil => simp [listJoin]
  | cons l ls ih => simp [listJoin, List.mem_append, ih]

theorem mem_candList {s : St} {cx cz : ℤ} {c : Cand} :
    c ∈ candList s cx cz ↔
      ∃ dx dz : ℤ,
        -VIEW_RADIUS ≤ dx ∧ dx ≤ VIEW_RADIUS ∧ -VIEW_RADIUS ≤ dz ∧ dz ≤ VIEW_RADIUS ∧
        keyOf (cx + dx) (cz + dz) ∉ keysOf s.loaded ∧
        keyOf (cx + dx) (cz + dz) ∉ s.inflight ∧
        c = { x := cx + dx, z := cz + dz, dsq := dx * dx + dz * dz } := by
  rw [candList, mem_listJoin]
  constructor
  · rintro ⟨row, hrow, hc⟩
    obtain ⟨dz, hdz, rfl⟩ := List.mem_map.mp hrow
    obtain ⟨dx, hdx, hfc⟩ := List.mem_filterMap.mp hc
    split at hfc
    · exact absurd hfc (by simp)
    · next hguard =>
      push_neg at hguard
      obtain ⟨hz1, hz2⟩ := mem_offsets.mp hdz
      obtain ⟨hx1, hx2⟩ := mem_offsets.mp hdx
      exact ⟨dx, dz, hx1, hx2, hz1, hz2, hguard.1, hguard.2,
        (Option.some.injEq .. ▸ hfc).symm⟩
  · rintro ⟨dx, dz, hx1, hx2, hz1, hz2, hL, hI, rfl⟩
    refine ⟨_, List.mem_map.mpr ⟨dz, mem_offsets.mpr ⟨hz1, hz2⟩, rfl⟩,
      List.mem_filterMap.mpr ⟨dx, mem_offsets.mpr ⟨hx1, hx2⟩, ?_⟩⟩
    rw [if_neg (not_or.mpr ⟨hL, hI⟩)]

/-- The float priority `max(0, VIEW_RADIUS − √dsq)` equals the same formula
applied to the clamped sort key `min dsq VIEW_RADIUS²`: clamping only
identifies candidates whose priority is already `0`. -/
theorem realPriority_eq_sortKey (c : Cand) :
    realPriority c = max 0 ((6 : ℝ) - Real.sqrt ((sortKey c : ℝ))) := by
  rw [realPriority, sortKey]
  simp only [VIEW_RADIUS]
  push_cast
  rcases le_total ((c.dsq : ℝ)) 36 with h | h
  · rw [min_eq_left h]
  · rw [min_eq_right h]
    have h36 : Real.sqrt 36 = 6 := by
      rw [show (36 : ℝ) = 6 ^ 2 by norm_num, Real.sqrt_sq (by norm_num : (0:ℝ) ≤ 6)]
    have h6 : (6 : ℝ) ≤ Real.sqrt ((c.dsq : ℝ)) := h36 ▸ Real.sqrt_le_sqrt h
    rw [h36]
    rw [max_eq_left (by linarith : (6:ℝ) - Real.sqrt ((c.dsq : ℝ)) ≤ 0)]
    norm_num

/-- Descending float priority is exactly ascending sort key: the comparator
of line 226 realises the order the spec describes. -/
theorem candLE_realPriority_anti {a b : Cand} (h : candLE a b) :
    realPriority b ≤ realPriority a := by
  rw [realPriority_eq_sortKey, realPriority_eq_sortKey]
  have h' : ((sortKey a : ℝ)) ≤ ((sortKey b : ℝ)) := Int.cast_le.mpr h
  have hs := Real.sqrt_le_sqrt h'
  apply max_le_max le_rfl
  linarith

theorem sorted_ensureLoadList (s : St) (cx cz : ℤ) :
    (ensureLoadList s cx cz).Sorted (fun a b => realPriority b ≤ realPriority a) :=
  (List.sorted_insertionSort candLE (candList s cx cz)).imp
    (fun hab => candLE_realPriority_anti hab)

theorem mem_ensureLoadList {s : St} {cx cz : ℤ} {c : Cand} :
    c ∈ ensureLoadList s cx cz ↔ c ∈ candList s cx cz :=
  (List.perm_insertionSort candLE (candList s cx cz)).mem_iff

/-- In a `candLE`-sorted list, an element strictly below every other element
is the head. -/
theorem head_of_sorted_strict_min {l : List Cand} {c : Cand}
    (hs : l.Sorted candLE) (hc : c ∈ l)
    (hmin : ∀ d ∈ l, d ≠ c → sortKey c < sortKey d) :
    l.head? = some c := by
  cases l with
  | nil => simp at hc
  | cons h t =>
    by_cases hhc : h = c
    · rw [hhc]
      rfl
    · exfalso
      have hct : c ∈ t := by
        rcases List.mem_cons.mp hc with h1 | h1
        · exact absurd h1.symm hhc
        · exact h1
      have h1 : candLE h c := (List.sorted_cons.mp hs).1 c hct
      have h2 : sortKey c < sortKey h := hmin h (List.mem_cons_self h t) hhc
      exact absurd h1 (not_le.mpr h2)

/-- Every candidate other than the camera's own chunk has a strictly larger
sort key (strictly smaller priority). -/
theorem center_strict_min {s : St} {cx cz : ℤ} {d : Cand}
    (hd : d ∈ candList s cx cz) (hne : d ≠ { x := cx, z := cz, dsq := 0 }) :
    sortKey { x := cx, z := cz, dsq := 0 } < sortKey d := by
  obtain ⟨dx, dz, _, _, _, _, _, _, rfl⟩ := mem_candList.mp hd
  have h0 : sortKey { x := cx, z := cz, dsq := 0 } = 0 := by
    rw [sortKey]
    simp [VIEW_RADIUS]
  rw [h0, sortKey]
  simp only [VIEW_RADIUS]
  by_contra hle
  push_neg at hle
  have hd0 : dx * dx + dz * dz ≤ 0 := by
    rcases min_le_iff.mp hle with h | h
    · exact h
    · norm_num at h
  have hx : dx = 0 := by nlinarith [mul_self_nonneg dx, mul_self_nonneg dz]
  have hz : dz = 0 := by nlinarith [mul_self_nonneg dx, mul_self_nonneg dz]
  exact hne (by simp [hx, hz])

theorem center_mem_candList {s : St} {cx cz : ℤ}
    (h1 : keyOf cx cz ∉ keysOf s.loaded) (h2 : keyOf cx cz ∉ s.inflight) :
    ({ x := cx, z := cz, dsq := 0 } : Cand) ∈ candList s cx cz := by
  rw [mem_candList]
  refine ⟨0, 0, by norm_num [VIEW_RADIUS], by norm_num [VIEW_RADIUS],
    by norm_num [VIEW_RADIUS], by norm_num [VIEW_RADIUS], ?_, ?_, by simp⟩
  · simpa using h1
  · simpa using h2

/-- **C7 (amended)** — `ensureChunksAround(cx, cz)`: (1) every candidate is a
key of the `(2·VIEW_RADIUS+1)²` square that is neither loaded nor in-flight,
with priority exactly `max(0, VIEW_RADIUS − √(dx² + dz²))`; (2) every such
key is a candidate; (3) the candidate list is sorted in descending priority;
(4) the `i`-th candidate's load is scheduled `i · 50` ms after now; and
(5) whenever the camera's own chunk `(dx = dz = 0)` is itself a candidate,
it is the first-scheduled load.  (When the camera's chunk is already loaded
or in-flight it is skipped, so the first-scheduled load is then a different
chunk — this is the one correction to the claim.) -/
theorem c7_priority_order_and_stagger (s : St) (cx cz : ℤ) (hd : s.disposed = false) :
    (∀ c ∈ ensureLoadList s cx cz, ∃ dx dz : ℤ,
        |dx| ≤ VIEW_RADIUS ∧ |dz| ≤ VIEW_RADIUS ∧ c.x = cx + dx ∧ c.z = cz + dz ∧
        keyOf c.x c.z ∉ keysOf s.loaded ∧ keyOf c.x c.z ∉ s.inflight ∧
        realPriority c = max 0 ((6 : ℝ) - Real.sqrt ((dx : ℝ) ^ 2 + (dz : ℝ) ^ 2))) ∧
      (∀ dx dz : ℤ, |dx| ≤ VIEW_RADIUS → |dz| ≤ VIEW_RADIUS →
        keyOf (cx + dx) (cz + dz) ∉ keysOf s.loaded →
        keyOf (cx + dx) (cz + dz) ∉ s.inflight →
        ∃ c ∈ ensureLoadList s cx cz, c.x = cx + dx ∧ c.z = cz + dz) ∧
      (ensureLoadList s cx cz).Sorted (fun a b => realPriority b ≤ realPriority a) ∧
      (∀ i (hi : i < (ensureLoadList s cx cz).length),
        ∃ tm ∈ (ensureStep s cx cz).timers,
          tm.act = TAct.loadStagger ((ensureLoadList s cx cz).get ⟨i, hi⟩).x
              ((ensureLoadList s cx cz).get ⟨i, hi⟩).z ∧
            tm.fireAt = s.now + i * 50) ∧
      (keyOf cx cz ∉ keysOf s.loaded → keyOf cx cz ∉ s.inflight →
        (ensureLoadList s cx cz).head? = some { x := cx, z := cz, dsq := 0 }) := by
  refine ⟨?_, ?_, sorted_ensureLoadList s cx cz, ?_, ?_⟩
  · intro c hc
    obtain ⟨dx, dz, hx1, hx2, hz1, hz2, hL, hI, rfl⟩ :=
      mem_candList.mp (mem_ensureLoadList.mp hc)
    refine ⟨dx, dz, abs_le.mpr ⟨hx1, hx2⟩, abs_le.mpr ⟨hz1, hz2⟩, rfl, rfl, hL, hI, ?_⟩
    rw [realPriority]
    simp only [VIEW_RADIUS]
    have hcast : ((dx : ℝ)) * dx + dz * dz = (dx : ℝ) ^ 2 + (dz : ℝ) ^ 2 := by ring
    push_cast
    rw [hcast]
  · intro dx dz hx hz hL hI
    obtain ⟨hx1, hx2⟩ := abs_le.mp hx
    obtain ⟨hz1, hz2⟩ := abs_le.mp hz
    exact ⟨_, mem_ensureLoadList.mpr
      (mem_candList.mpr ⟨dx, dz, hx1, hx2, hz1, hz2, hL, hI, rfl⟩), rfl, rfl⟩
  · intro i hi
    rw [ensureStep, if_neg (by rw [hd]; simp)]
    dsimp only
    have hi' : i < ((ensureLoadList s cx cz).map (fun c => TAct.loadStagger c.x c.z)).length := by
      simpa using hi
    have h := mem_stagger s.nextId s.now 50
      ((ensureLoadList s cx cz).map (fun c => TAct.loadStagger c.x c.z)) 0 i hi'
    refine ⟨_, List.mem_append.mpr (Or.inl (List.mem_append.mpr (Or.inr h))), ?_, ?_⟩
    · show ((ensureLoadList s cx cz).map (fun c => TAct.loadStagger c.x c.z)).get ⟨i, hi'⟩ = _
      rw [List.get_map]
    · show s.now + (0 + i) * 50 = s.now + i * 50
      rw [Nat.zero_add]
  · intro h1 h2
    apply head_of_sorted_strict_min (List.sorted_insertionSort candLE (candList s cx cz))
      (mem_ensureLoadList.mpr (center_mem_candList h1 h2))
    intro d hdm hne
    exact center_strict_min (mem_ensureLoadList.mp hdm) hne

/-- Witness for C7: in the empty initial state with the camera at `(0,0)`,
the camera's own chunk is a candidate and is the first-scheduled load. -/
theorem c7_witness :
    init.disposed = false ∧
      (ensureLoadList init 0 0).head? = some { x := 0, z := 0, dsq := 0 } :=
  ⟨rfl, (c7_priority_order_and_stagger init 0 0 rfl).2.2.2.2 (by decide) (by decide)⟩

/-- The state of C7's counterexample: the camera chunk `(0,0)` is already
loaded (one successful remote load), everything else is empty. -/
def evsC7 : List Ev := [Ev.load 0 0 0, Ev.resolve 0 (FOut.ok body8) 10]

set_option maxRecDepth 100000 in
/-- **C7 counterexample** — the first-scheduled load is *not* always the
camera's own chunk: with `(0,0)` already loaded, `ensureChunksAround(0, 0)`
skips it, and the first-scheduled load timer is for chunk `(0,-1)`. -/
theorem c7_first_scheduled_not_center_cex :
    keyOf 0 0 ∈ keysOf (run cfg2 init evsC7).loaded ∧
      (ensureStep (run cfg2 init evsC7) 0 0).timers.head? =
        some { id := 2, fireAt := 10, act := TAct.loadStagger 0 (-1) } := by
  decide

end VoxelStream


